import Mathlib

/-!
Verification development for the mac-system-ocr native engine
(src/lib/ocr.h, src/lib/ocr.mm, src/lib/binding.c).

Shallow embedding conventions:
- C `double`/`float` values (confidences, normalized coordinates) are
  modelled as `ℚ`; the comparisons the code performs are order
  comparisons on these values.
- C strings (`const char*`) are modelled as `Option String` where a null
  pointer can occur, plain `String` otherwise.  `strdup` of string
  literals and of error-message strings is modelled as always
  succeeding (the code never branches on those); the two `strdup` calls
  whose results the code explicitly checks (the recognized-text copies
  in perform_ocr) are governed by an allocation oracle, as is the
  initial `malloc` of the result struct, whose failure the code turns
  into a NULL return.
- `malloc` leaves memory uninitialized: a struct field that some code
  path never assigns is represented with `MemVal.uninit`.
- External OS capabilities (filesystem, CoreGraphics image decoding,
  the Vision recognition request) are oracles passed in as records of
  functions; the code under verification only sequences and inspects
  their answers.
-/

/-- A machine word / struct field as obtained from `malloc`: either still
uninitialized garbage, or a value that was explicitly assigned. -/
inductive MemVal (α : Type) where
  | uninit : MemVal α
  | init (v : α) : MemVal α
  deriving DecidableEq, Repr

/-- One ranked candidate (`VNRecognizedText`): the hypothesis string and its
confidence. -/
structure VNRecognizedText where
  string : String
  confidence : ℚ
  deriving DecidableEq, Repr

/-- Normalized bounding box (`CGRect` with bottom-left origin, as used via
`observation.boundingBox`). -/
structure CGRect where
  x : ℚ
  y : ℚ
  width : ℚ
  height : ℚ
  deriving DecidableEq, Repr

/-- One recognized region (`VNRecognizedTextObservation`): its bounding box and
the ranked candidate list the capability would hand back from
`topCandidates:`. -/
structure VNRecognizedTextObservation where
  boundingBox : CGRect
  candidates : List VNRecognizedText
  deriving DecidableEq, Repr

/-- `[observation topCandidates:n]`: the first `n` candidates in the
capability's ranked order. -/
def topCandidates (obs : VNRecognizedTextObservation) (n : ℕ) : List VNRecognizedText :=
  obs.candidates.take n

/-- `TextObservation` from ocr.h (lines 23-30). Never constructed by ocr.mm;
present because `OCRResult` declares an array of them. -/
structure TextObservation where
  text : String
  confidence : ℚ
  x : ℚ
  y : ℚ
  width : ℚ
  height : ℚ
  deriving DecidableEq, Repr

/-- `OCRResult` from ocr.h (lines 36-42).  `error` and `text` are nullable C
strings; `observations` is a nullable array pointer and `observation_count` a
size.  The latter two are wrapped in `MemVal` because `perform_ocr` obtains
the struct from `malloc` and there are code paths that never assign them. -/
structure OCRResult where
  error : Option String
  text : Option String
  confidence : ℚ
  observations : MemVal (Option (List TextObservation))
  observation_count : MemVal ℕ
  deriving DecidableEq, Repr

/-- `OCRRecognitionLevel` from ocr.h. -/
inductive OCRRecognitionLevel where
  | fast
  | accurate
  deriving DecidableEq, Repr

/-- `OCROptions` from ocr.h. -/
structure OCROptions where
  languages : Option String
  recognition_level : OCRRecognitionLevel
  min_confidence : ℚ
  deriving DecidableEq, Repr

/-- `DEFAULT_OPTIONS` from ocr.mm (lines 8-12). -/
def DEFAULT_OPTIONS : OCROptions :=
  { languages := some "en-US"
    recognition_level := .accurate
    min_confidence := 0 }

/-- `OCRBatchOptions` from ocr.h. -/
structure OCRBatchOptions where
  ocr_options : OCROptions
  max_threads : ℤ
  batch_size : ℤ
  deriving DecidableEq, Repr

/-- `DEFAULT_BATCH_OPTIONS` from ocr.mm (lines 14-22). -/
def DEFAULT_BATCH_OPTIONS : OCRBatchOptions :=
  { ocr_options := DEFAULT_OPTIONS
    max_threads := 0
    batch_size := 1 }

/-- `OCRBatchResult` from ocr.h.  `results` is a nullable array pointer;
each entry is itself a nullable `OCRResult*` (the array is `calloc`ed, so
entries start out NULL). -/
structure OCRBatchResult where
  error : Option String
  results : Option (List (Option OCRResult))
  count : ℕ
  failed_count : ℕ
  deriving DecidableEq, Repr

/-- Oracle for the filesystem and CoreGraphics decoding externals used by
`CreateCGImageFromPath` / `CreateCGImageFromBuffer`.  Data, image-source and
image handles are opaque naturals. -/
structure FileSystem where
  fileExists : String → Bool
  dataWithContentsOfFile : String → Option ℕ
  CGImageSourceCreateWithData : ℕ → Option ℕ
  CGImageSourceCreateImageAtIndex : ℕ → Option ℕ

/-- Suffix of a character list after the last occurrence of `sep`; `none`
when `sep` does not occur. -/
def afterLastChar (sep : Char) : List Char → Option (List Char)
  | [] => none
  | c :: rest =>
    match afterLastChar sep rest with
    | some suffix => some suffix
    | none => if c = sep then some rest else none

/-- `NSString.lowercaseString`, as per-character lowering (sufficient for the
ASCII extension strings compared here). -/
def lowercaseString (s : String) : String :=
  String.mk (s.data.map Char.toLower)

/-- `NSString.pathExtension`: the part of the last path component after its
last dot (empty when there is no dot). -/
def pathExtension (p : String) : String :=
  match afterLastChar '.' ((afterLastChar '/' p.data).getD p.data) with
  | none => ""
  | some e => String.mk e

/-- `isValidImageExtension` from ocr.mm (lines 24-31): membership of the
lowercased extension in the fixed allow-list. -/
def isValidImageExtension (extension : String) : Bool :=
  (["jpg", "jpeg", "png", "tiff", "gif"]).contains (lowercaseString extension)

/-- `CreateCGImageFromPath` from ocr.mm (lines 37-83).  The path argument is a
nullable C string.  `NSString stringWithUTF8String:` on a valid string is
modelled as always succeeding (Lean strings are valid unicode), so the
"Failed to create NSString from path" branch is unreachable in the model. -/
def CreateCGImageFromPath (fs : FileSystem) (path : Option String) : Except String ℕ :=
  match path with
  | none => .error "Invalid parameters"
  | some p =>
    if fs.fileExists p = false then
      .error "File does not exist"
    else
      let extension := lowercaseString (pathExtension p)
      if isValidImageExtension extension = false then
        .error "Invalid image file extension"
      else
        match fs.dataWithContentsOfFile p with
        | none => .error "Failed to read image data"
        | some imageData =>
          match fs.CGImageSourceCreateWithData imageData with
          | none => .error "Failed to create image source"
          | some imageSource =>
            match fs.CGImageSourceCreateImageAtIndex imageSource with
            | none => .error "Failed to create CGImage from source"
            | some cgImage => .ok cgImage

/-- The read-then-decode tail of `CreateCGImageFromPath` (ocr.mm lines 61-81),
split out so the theorems can say that it runs exactly when both up-front
checks pass. -/
def readAndDecode (fs : FileSystem) (p : String) : Except String ℕ :=
  match fs.dataWithContentsOfFile p with
  | none => .error "Failed to read image data"
  | some imageData =>
    match fs.CGImageSourceCreateWithData imageData with
    | none => .error "Failed to create image source"
    | some imageSource =>
      match fs.CGImageSourceCreateImageAtIndex imageSource with
      | none => .error "Failed to create CGImage from source"
      | some cgImage => .ok cgImage

/-- `CreateCGImageFromBuffer` from ocr.mm (lines 85-114).  The buffer is a
nullable pointer modelled as an opaque handle; `NSData dataWithBytes:` is
modelled as always succeeding, handing the same handle to the decoding
externals (the same CoreGraphics functions the path flavor uses, hence the
shared `FileSystem` oracle). -/
def CreateCGImageFromBuffer (fs : FileSystem) (buffer : Option ℕ) (length : ℕ) :
    Except String ℕ :=
  match buffer with
  | none => .error "Invalid parameters"
  | some b =>
    if length = 0 then
      .error "Invalid parameters"
    else
      match fs.CGImageSourceCreateWithData b with
      | none => .error "Failed to create image source from buffer"
      | some imageSource =>
        match fs.CGImageSourceCreateImageAtIndex imageSource with
        | none => .error "Failed to create CGImage from buffer source"
        | some cgImage => .ok cgImage

/-- Allocation oracle for `perform_ocr`: whether the initial
`malloc(sizeof(OCRResult))` succeeds, and whether the checked `strdup` of the
recognized text (ocr.mm lines 218 / 228) succeeds. -/
structure AllocEnv where
  mallocResult : Bool
  strdupText : Bool
  deriving DecidableEq, Repr

/-- Oracle for one `VNImageRequestHandler performRequests:` invocation: either
it fails with an `NSError` description, or it succeeds and the completion
handler receives the capability's observation list.  (The handler's own
`error` early-return coincides with the failure case; the
`localizedDescription` is modelled as always present, so the
"Unknown error occurred during OCR" fallback is unreachable.) -/
structure RecogEnv where
  performRequests : Except String (List VNRecognizedTextObservation)

/-- The `__block` accumulator state of the completion handler in
`perform_ocr` (ocr.mm lines 133-135). -/
structure OCRState where
  recognizedText : String
  totalConfidence : ℚ
  observationCount : ℕ
  deriving DecidableEq, Repr

/-- Candidate selection inside the completion handler (ocr.mm lines 149-155):
the first candidate, in ranked order, whose confidence is `>=` the
threshold. -/
def selectCandidate (min_confidence : ℚ) (candidates : List VNRecognizedText) :
    Option VNRecognizedText :=
  candidates.find? (fun candidate => min_confidence ≤ candidate.confidence)

/-- The body of the per-observation loop in the completion handler (ocr.mm
lines 146-172): select a candidate from `topCandidates:5`; if one is selected,
append (separator and) text when the text is non-empty, and accumulate
confidence and count unconditionally. -/
def processObservation (min_confidence : ℚ) (st : OCRState)
    (observation : VNRecognizedTextObservation) : OCRState :=
  match selectCandidate min_confidence (topCandidates observation 5) with
  | none => st
  | some bestCandidate =>
    let st1 :=
      if 0 < bestCandidate.string.length then
        { st with recognizedText :=
            (if 0 < st.recognizedText.length then
              st.recognizedText ++
                (if observation.boundingBox.y < mkRat 1 10 then "\n" else " ")
            else st.recognizedText) ++ bestCandidate.string }
      else st
    { st1 with
      totalConfidence := st1.totalConfidence + bestCandidate.confidence
      observationCount := st1.observationCount + 1 }

/-- The `OCRResult` as initialized by ocr.mm lines 118-124: `error`, `text`
and `confidence` are assigned; `observations` and `observation_count` keep
whatever `malloc` left there. -/
def mallocOCRResult : OCRResult :=
  { error := none
    text := none
    confidence := 0
    observations := .uninit
    observation_count := .uninit }

/-- `perform_ocr` from ocr.mm (lines 116-238).  Returns `none` for a NULL
pointer (initial `malloc` failure).  Request configuration (languages,
recognition level, revision, minimumTextHeight, customWords) only
parameterizes the opaque capability and does not otherwise affect the
modelled control flow.  `[recognizedText UTF8String]` is modelled as always
non-null, so the `textStr == NULL` fallback (line 224) is unreachable. -/
def perform_ocr (alloc : AllocEnv) (env : RecogEnv) (image : Option ℕ)
    (options : Option OCROptions) : Option OCRResult :=
  if alloc.mallocResult = false then none
  else
    let opts := options.getD DEFAULT_OPTIONS
    match image with
    | none => some { mallocOCRResult with error := some "CGImage is required and cannot be NULL" }
    | some _ =>
      match env.performRequests with
      | .error msg => some { mallocOCRResult with error := some msg }
      | .ok observations =>
        let st := observations.foldl (processObservation opts.min_confidence)
          { recognizedText := "", totalConfidence := 0, observationCount := 0 }
        if 0 < st.observationCount then
          if alloc.strdupText then
            some { mallocOCRResult with
              text := some st.recognizedText
              confidence := st.totalConfidence / (st.observationCount : ℚ) }
          else
            some { mallocOCRResult with error := some "Memory allocation failed for OCR text" }
        else
          if alloc.strdupText then
            some { mallocOCRResult with text := some "", confidence := 0 }
          else
            some { mallocOCRResult with error := some "Memory allocation failed for empty text" }

/-- `getSystemThreadCount` resolution in the batch entry points (ocr.mm lines
295-296 / 372-373): a positive `max_threads` wins, otherwise the processor
count reported by the OS (an oracle input). -/
def threadCount (nproc : ℕ) (opts : OCRBatchOptions) : ℕ :=
  if 0 < opts.max_threads then opts.max_threads.toNat else nproc

/-- The per-item computation of one dispatched worker in `perform_batch_ocr`
(ocr.mm lines 316-342): resolve the path; on failure, build an error result
(the unchecked `malloc` at line 322 is modelled as succeeding; `error`,
`text`, `confidence` assigned, the remaining fields left as `malloc` gave
them); on success, run `perform_ocr` and release the image. -/
def pathItemOutcome (fs : FileSystem) (alloc : AllocEnv) (recog : RecogEnv)
    (opts : OCROptions) (path : Option String) : Option OCRResult :=
  match CreateCGImageFromPath fs path with
  | .error e =>
    some { error := some e
           text := none
           confidence := 0
           observations := .uninit
           observation_count := .uninit }
  | .ok image => perform_ocr alloc recog (some image) (some opts)

/-- Same for one worker of `perform_batch_ocr_from_buffers` (ocr.mm lines
394-421). -/
def bufferItemOutcome (fs : FileSystem) (alloc : AllocEnv) (recog : RecogEnv)
    (opts : OCROptions) (buffer : Option ℕ) (length : ℕ) : Option OCRResult :=
  match CreateCGImageFromBuffer fs buffer length with
  | .error e =>
    some { error := some e
           text := none
           confidence := 0
           observations := .uninit
           observation_count := .uninit }
  | .ok image => perform_ocr alloc recog (some image) (some opts)

/-- Whether the atomic `failed_count` counter is incremented for a finished
slot: exactly when the slot holds a result whose `error` is set (failure
branch, line 327, where the constructed result always has `error` set, and
success branch, lines 337-339; a NULL result from `perform_ocr` increments
nothing). -/
def failIncr : Option OCRResult → Bool
  | none => false
  | some r => r.error.isSome

/-- Configuration of one dispatch loop: item count, the semaphore's initial
value, each item's (pure) outcome, and whether the worker for item `i`
signals the semaphore when it finishes.  In the path flavor the failure
branch returns without `dispatch_semaphore_signal` (ocr.mm line 328), so
`signals i` is true only when image creation succeeded (line 341); in the
buffer flavor both branches signal (lines 406, 420), so `signals` is
constantly true. -/
structure BatchCfg where
  count : ℕ
  thread_count : ℕ
  outcome : ℕ → Option OCRResult
  signals : ℕ → Bool

/-- The dispatch loop of `perform_batch_ocr` (ocr.mm lines 311-344) as a
`BatchCfg`. -/
def pathBatchCfg (fs : FileSystem) (alloc : ℕ → AllocEnv) (recog : ℕ → RecogEnv)
    (opts : OCROptions) (paths : List (Option String)) (tc : ℕ) : BatchCfg :=
  { count := paths.length
    thread_count := tc
    outcome := fun i => pathItemOutcome fs (alloc i) (recog i) opts (paths.getD i none)
    signals := fun i =>
      match CreateCGImageFromPath fs (paths.getD i none) with
      | .error _ => false
      | .ok _ => true }

/-- The dispatch loop of `perform_batch_ocr_from_buffers` (ocr.mm lines
388-423) as a `BatchCfg`. -/
def bufferBatchCfg (fs : FileSystem) (alloc : ℕ → AllocEnv) (recog : ℕ → RecogEnv)
    (opts : OCROptions) (buffers : List (Option ℕ × ℕ)) (tc : ℕ) : BatchCfg :=
  { count := buffers.length
    thread_count := tc
    outcome := fun i =>
      bufferItemOutcome fs (alloc i) (recog i) opts
        (buffers.getD i (none, 0)).1 (buffers.getD i (none, 0)).2
    signals := fun _ => true }

/-- Interleaving state of a batch call: how many items the main loop has
dispatched, the semaphore value, the indices of dispatched-but-unfinished
workers, the (calloc-zeroed) result slot array, and the atomic failure
counter. -/
structure BState where
  mainIdx : ℕ
  permits : ℕ
  running : List ℕ
  slots : List (Option OCRResult)
  failed : ℕ
  deriving DecidableEq, Repr

/-- Scheduler events: the main loop passes `dispatch_semaphore_wait` and
dispatches the next item, or a running worker runs to completion (its whole
body taken as one atomic step: workers touch disjoint slots, the failure
counter is atomic, and the semaphore is counted, so coarse interleaving is
faithful). -/
inductive Ev where
  | dispatch
  | complete (i : ℕ)
  deriving DecidableEq, Repr

/-- State at the top of the dispatch loop: semaphore freshly created with
`thread_count` permits, nothing dispatched, all slots NULL from `calloc`
(ocr.mm lines 298, 304-309). -/
def initState (cfg : BatchCfg) : BState :=
  { mainIdx := 0
    permits := cfg.thread_count
    running := []
    slots := List.replicate cfg.count none
    failed := 0 }

/-- One scheduler step.  `dispatch` needs an item left to dispatch and a
semaphore permit (`dispatch_semaphore_wait` succeeds only then — with no
permit the main thread stays blocked, i.e. the event is not enabled).
`complete i` needs worker `i` to be running; it writes slot `i`, bumps the
failure counter when the outcome carries an error, and signals the semaphore
exactly when the flavor's code path does. -/
def step (cfg : BatchCfg) (s : BState) : Ev → Option BState
  | .dispatch =>
    if s.mainIdx < cfg.count ∧ 0 < s.permits then
      some { s with
        mainIdx := s.mainIdx + 1
        permits := s.permits - 1
        running := s.mainIdx :: s.running }
    else none
  | .complete i =>
    if i ∈ s.running then
      some { mainIdx := s.mainIdx
             permits := s.permits + (if cfg.signals i then 1 else 0)
             running := s.running.erase i
             slots := s.slots.set i (cfg.outcome i)
             failed := s.failed + (if failIncr (cfg.outcome i) then 1 else 0) }
    else none

/-- Run a sequence of scheduler events; `none` if some event is not enabled. -/
def execFrom (cfg : BatchCfg) : BState → List Ev → Option BState
  | s, [] => some s
  | s, e :: es =>
    match step cfg s e with
    | none => none
    | some s' => execFrom cfg s' es

/-- The batch call can return: the dispatch loop is done and
`dispatch_group_wait` has seen every worker finish (ocr.mm line 346). -/
def isFinal (cfg : BatchCfg) (s : BState) : Prop :=
  s.mainIdx = cfg.count ∧ s.running = []

instance (cfg : BatchCfg) (s : BState) : Decidable (isFinal cfg s) := by
  unfold isFinal; infer_instance

/-- Allocation oracle for the batch entry points: the `malloc` of the
`OCRBatchResult` struct, and the `calloc` of the results array. -/
structure BatchAlloc where
  batchMalloc : Bool
  resultsCalloc : Bool
  deriving DecidableEq, Repr

/-- What a batch entry point does before (or instead of) running the loop:
either it returns early — `none` for a NULL return, or a batch result whose
`results` never got allocated — or it proceeds to the dispatch loop described
by a `BatchCfg`. -/
inductive BatchPhase where
  | early (r : Option OCRBatchResult)
  | dispatch (cfg : BatchCfg)

/-- The pre-loop phase of `perform_batch_ocr` (ocr.mm lines 275-309): NULL on
struct-malloc failure; an error result with NULL `results` when no paths were
supplied or when the results-array `calloc` fails; otherwise the dispatch
loop.  Callers pass `count` equal to the array length, so the model derives
`count` from the list. -/
def perform_batch_ocr (ba : BatchAlloc) (fs : FileSystem) (alloc : ℕ → AllocEnv)
    (recog : ℕ → RecogEnv) (nproc : ℕ) (image_paths : Option (List (Option String)))
    (options : Option OCRBatchOptions) : BatchPhase :=
  if ba.batchMalloc = false then .early none
  else if image_paths = none ∨ (image_paths.getD []).length = 0 then
    .early (some { error := some "No image paths provided"
                   results := none
                   count := (image_paths.getD []).length
                   failed_count := 0 })
  else if ba.resultsCalloc = false then
    .early (some { error := some "Memory allocation failed for results array"
                   results := none
                   count := (image_paths.getD []).length
                   failed_count := 0 })
  else
    .dispatch (pathBatchCfg fs alloc recog
      (options.getD DEFAULT_BATCH_OPTIONS).ocr_options (image_paths.getD [])
      (threadCount nproc (options.getD DEFAULT_BATCH_OPTIONS)))

/-- The pre-loop phase of `perform_batch_ocr_from_buffers` (ocr.mm lines
352-386), mirroring the path flavor with the buffers/lengths arrays (`none`
models a NULL `buffers` or `lengths` pointer). -/
def perform_batch_ocr_from_buffers (ba : BatchAlloc) (fs : FileSystem)
    (alloc : ℕ → AllocEnv) (recog : ℕ → RecogEnv) (nproc : ℕ)
    (buffers : Option (List (Option ℕ × ℕ))) (lengthsNull : Bool)
    (options : Option OCRBatchOptions) : BatchPhase :=
  if ba.batchMalloc = false then .early none
  else if buffers = none ∨ lengthsNull = true ∨ (buffers.getD []).length = 0 then
    .early (some { error := some "No image buffers provided"
                   results := none
                   count := (buffers.getD []).length
                   failed_count := 0 })
  else if ba.resultsCalloc = false then
    .early (some { error := some "Memory allocation failed for results array"
                   results := none
                   count := (buffers.getD []).length
                   failed_count := 0 })
  else
    .dispatch (bufferBatchCfg fs alloc recog
      (options.getD DEFAULT_BATCH_OPTIONS).ocr_options (buffers.getD [])
      (threadCount nproc (options.getD DEFAULT_BATCH_OPTIONS)))

/-- The candidates accepted across an observation list (one per region that
had a qualifying candidate, in traversal order). -/
def acceptedCands (min_confidence : ℚ) (l : List VNRecognizedTextObservation) :
    List VNRecognizedText :=
  l.filterMap (fun o => selectCandidate min_confidence (topCandidates o 5))

/-- The accepted (text, bounding-box bottom-left y) pairs across an
observation list, in traversal order. -/
def acceptedPairs (min_confidence : ℚ) (l : List VNRecognizedTextObservation) :
    List (String × ℚ) :=
  l.filterMap (fun o =>
    (selectCandidate min_confidence (topCandidates o 5)).map
      (fun c => (c.string, o.boundingBox.y)))

/-- The separator the code inserts before a region with bottom-left `y`:
newline when `y < 0.1` (an absolute comparison), space otherwise
(ocr.mm lines 160-166). -/
def assembleSep (y : ℚ) : String :=
  if y < mkRat 1 10 then "\n" else " "

/-- Assembled text over accepted (text, y) pairs, as the code builds it: first
text bare, every later text preceded by the separator chosen from its own
absolute `y`. -/
def assembleText : List (String × ℚ) → String
  | [] => ""
  | p :: rest => rest.foldl (fun acc q => acc ++ assembleSep q.2 ++ q.1) p.1

/-- Helper for `assembleTextSpecRelative`: fold carrying the previous accepted
region's `y`. -/
def assembleRelGo : String → ℚ → List (String × ℚ) → String
  | acc, _, [] => acc
  | acc, prevY, q :: rest =>
    assembleRelGo (acc ++ (if q.2 < prevY - (1 : ℚ) / 10 then "\n" else " ") ++ q.1) q.2 rest

/-- Modelled from the spec wording of the separator rule, for refinement
comparison only (spec 4.2 / claim: a newline "before a region if its
bounding-box bottom-left y is below a fixed threshold (0.1 ...) relative to
the *previous* accepted region"): newline exactly when the region's `y` is
more than 0.1 below the previous accepted region's `y`. -/
def assembleTextSpecRelative : List (String × ℚ) → String
  | [] => ""
  | p :: rest => assembleRelGo p.1 p.2 rest

/-- Arithmetic mean of a list of rationals, 0 for the empty list. -/
def listMean (l : List ℚ) : ℚ :=
  if l.length = 0 then 0 else l.sum / (l.length : ℚ)

/-- Whether slot `i` counts as written in state `s` (dispatched and no longer
running). -/
def wflag (s : BState) (i : ℕ) : ℕ :=
  if i < s.mainIdx ∧ i ∉ s.running then 1 else 0

/-- Structural invariant of the dispatch loop: running workers are dispatched
indices, no duplicates, the slot array keeps its `calloc` size, finished
slots hold their item's outcome, and unfinished slots are still NULL. -/
def LoopInv (cfg : BatchCfg) (s : BState) : Prop :=
  (∀ i ∈ s.running, i < s.mainIdx) ∧
  s.running.Nodup ∧
  s.mainIdx ≤ cfg.count ∧
  s.slots.length = cfg.count ∧
  (∀ i, i < s.mainIdx → i ∉ s.running → s.slots.getD i none = cfg.outcome i) ∧
  (∀ i, (i < s.mainIdx → i ∈ s.running) → s.slots.getD i none = none)

/-- Number of dispatched items whose workers never return their semaphore
permit. -/
def badCount (cfg : BatchCfg) (m : ℕ) : ℕ :=
  ((List.range m).filter (fun i => cfg.signals i = false)).length

/-- Number of running workers that will return their permit. -/
def sigRun (cfg : BatchCfg) (s : BState) : ℕ :=
  (s.running.filter (fun i => cfg.signals i)).length

/-- Permit accounting: available permits, plus permits held by workers that
will give them back, plus permits permanently lost to non-signaling workers,
always equals the semaphore's initial value. -/
def PermitEq (cfg : BatchCfg) (s : BState) : Prop :=
  s.permits + sigRun cfg s + badCount cfg s.mainIdx = cfg.thread_count

/-- Demo filesystem: exactly two paths exist, reading and decoding always
succeed. -/
def fsDemo : FileSystem :=
  { fileExists := fun p => p == "good.png" || p == "good2.png"
    dataWithContentsOfFile := fun _ => some 0
    CGImageSourceCreateWithData := fun _ => some 0
    CGImageSourceCreateImageAtIndex := fun _ => some 0 }

/-- Allocation oracle in which every allocation succeeds. -/
def allocOK : AllocEnv := { mallocResult := true, strdupText := true }

/-- Recognition oracle that succeeds with an empty observation list. -/
def recogOK : RecogEnv := { performRequests := .ok [] }

/-- A region well above the bottom edge (y = 0.5) with one certain candidate
"A". -/
def obsHigh : VNRecognizedTextObservation :=
  { boundingBox := { x := 0, y := mkRat 1 2, width := 1, height := mkRat 1 10 }
    candidates := [{ string := "A", confidence := 1 }] }

/-- A region at y = 0.3 (above the absolute 0.1 threshold, but more than 0.1
below `obsHigh`) with one certain candidate "B". -/
def obsLow : VNRecognizedTextObservation :=
  { boundingBox := { x := 0, y := mkRat 3 10, width := 1, height := mkRat 1 10 }
    candidates := [{ string := "B", confidence := 1 }] }

/-- Path-flavor batch: one nonexistent path followed by one valid path, with
an admission gate of one permit. -/
def cfgPath2 : BatchCfg :=
  pathBatchCfg fsDemo (fun _ => allocOK) (fun _ => recogOK) DEFAULT_OPTIONS
    [some "missing.png", some "good.png"] 1

/-- Path-flavor batch: exactly one failing item among two valid ones, with an
admission gate of one permit. -/
def cfgPath3 : BatchCfg :=
  pathBatchCfg fsDemo (fun _ => allocOK) (fun _ => recogOK) DEFAULT_OPTIONS
    [some "missing.png", some "good.png", some "good2.png"] 1

/-- Buffer-flavor batch of the same shape as `cfgPath2` (first item fails to
decode, second succeeds), gate of one permit. -/
def cfgBuf2 : BatchCfg :=
  bufferBatchCfg fsDemo (fun _ => allocOK) (fun _ => recogOK) DEFAULT_OPTIONS
    [(none, 0), (some 1, 4)] 1

/-- Path-flavor batch of two valid paths with four permits: a batch that runs
to completion. -/
def cfgPathOK : BatchCfg :=
  pathBatchCfg fsDemo (fun _ => allocOK) (fun _ => recogOK) DEFAULT_OPTIONS
    [some "good.png", some "good2.png"] 4

/-- A schedule for `cfgPathOK` in which the second item completes before the
first. -/
def trOK : List Ev := [Ev.dispatch, Ev.dispatch, Ev.complete 1, Ev.complete 0]

/-- The state `cfgPathOK` reaches after `trOK`. -/
def sOK : BState :=
  (execFrom cfgPathOK (initState cfgPathOK) trOK).getD (initState cfgPathOK)

lemma getD_replicate {α : Type} : ∀ (n i : ℕ), (List.replicate n (none : Option α)).getD i none = none := by
  intro n
  induction n with
  | zero => intro i; rfl
  | succ n ih =>
    intro i
    cases i with
    | zero => rfl
    | succ i => simp [List.replicate]

lemma getD_set_self {α : Type} : ∀ (l : List α) (i : ℕ) (v d : α), i < l.length → (l.set i v).getD i d = v := by
  intro l
  induction l with
  | nil => intro i v d h; simp at h
  | cons a l ih =>
    intro i v d h
    cases i with
    | zero => rfl
    | succ i =>
      simp only [List.set, List.getD_cons_succ]
      exact ih i v d (by simpa using h)

lemma getD_set_ne {α : Type} : ∀ (l : List α) (i j : ℕ), i ≠ j → ∀ (v d : α), (l.set i v).getD j d = l.getD j d := by
  intro l
  induction l with
  | nil => intro i j hij v d; simp [List.set]
  | cons a l ih =>
    intro i j hij v d
    cases i with
    | zero =>
      cases j with
      | zero => exact absurd rfl hij
      | succ j => rfl
    | succ i =>
      cases j with
      | zero => rfl
      | succ j =>
        simp only [List.set, List.getD_cons_succ]
        exact ih i j (by omega) v d

lemma string_length_pos_iff (s : String) : 0 < s.length ↔ s ≠ "" := by
  constructor
  · intro h he
    subst he
    simp at h
  · intro h
    have hd : s.data ≠ [] := by
      intro hnil
      exact h (String.ext hnil)
    have : s.length = s.data.length := rfl
    rw [this]
    exact List.length_pos.mpr hd

lemma string_empty_append (s : String) : "" ++ s = s := by
  apply String.ext
  simp [String.data_append]

lemma string_append_ne_empty_left (s t : String) (h : s ≠ "") : s ++ t ≠ "" := by
  intro he
  apply h
  apply String.ext
  have : (s ++ t).data = s.data ++ t.data := String.data_append s t
  have hnil : s.data ++ t.data = [] := by
    rw [← this, he]
  rcases List.append_eq_nil.mp hnil with ⟨h1, _⟩
  exact h1

lemma find?_first {α : Type} (p : α → Bool) :
    ∀ (l : List α) (a : α), l.find? p = some a →
      ∃ l1 l2, l = l1 ++ a :: l2 ∧ ∀ x ∈ l1, p x = false := by
  intro l
  induction l with
  | nil => intro a h; simp [List.find?] at h
  | cons b l ih =>
    intro a h
    by_cases hb : p b = true
    · rw [List.find?_cons_of_pos _ hb] at h
      injection h with h
      exact ⟨[], l, by simp [h], by intro x hx; simp at hx⟩
    · have hb' : p b = false := by
        cases hpb : p b
        · rfl
        · exact absurd hpb hb
      rw [List.find?_cons_of_neg _ (by simp [hb'])] at h
      obtain ⟨l1, l2, hl, hall⟩ := ih a h
      refine ⟨b :: l1, l2, by rw [hl]; rfl, ?_⟩
      intro x hx
      rcases List.mem_cons.mp hx with hx | hx
      · rw [hx]; exact hb'
      · exact hall x hx

lemma filter_erase_nodup {α : Type} [DecidableEq α] (p : α → Bool) :
    ∀ (l : List α) (a : α), l.Nodup → a ∈ l →
      ((l.erase a).filter p).length + (if p a then 1 else 0) = (l.filter p).length := by
  intro l
  induction l with
  | nil => intro a _ ha; simp at ha
  | cons b l ih =>
    intro a hnd ha
    rcases List.nodup_cons.mp hnd with ⟨hbl, hndl⟩
    by_cases hba : b = a
    · subst hba
      rw [List.erase_cons_head]
      by_cases hp : p b = true
      · simp [List.filter_cons, hp]
      · have hp' : p b = false := by
          cases hpb : p b
          · rfl
          · exact absurd hpb hp
        simp [List.filter_cons, hp']
    · have ha' : a ∈ l := by
        rcases List.mem_cons.mp ha with h | h
        · exact absurd h.symm hba
        · exact h
      rw [List.erase_cons_tail]
      · by_cases hp : p b = true
        · simp only [List.filter_cons, hp, if_true]
          simp only [List.length_cons]
          have := ih a hndl ha'
          omega
        · have hp' : p b = false := by
            cases hpb : p b
            · rfl
            · exact absurd hpb hp
          simp only [List.filter_cons, hp', if_false]
          exact ih a hndl ha'
      · simp
        intro hcon
        exact hba hcon

/-- C7: for a filesystem path, resolution fails with the not-found error when
the path does not exist (this check comes first), fails with the
unsupported-format error when the (case-insensitively compared) extension is
outside the fixed allow-list jpg/jpeg/png/tiff/gif, and only when both checks
pass does it proceed to read the file bytes and decode them. -/
theorem C7_path_resolution_checks (fs : FileSystem) (p : String) :
    (fs.fileExists p = false →
      CreateCGImageFromPath fs (some p) = .error "File does not exist") ∧
    (fs.fileExists p = true →
      isValidImageExtension (lowercaseString (pathExtension p)) = false →
      CreateCGImageFromPath fs (some p) = .error "Invalid image file extension") ∧
    (fs.fileExists p = true →
      isValidImageExtension (lowercaseString (pathExtension p)) = true →
      CreateCGImageFromPath fs (some p) = readAndDecode fs p) ∧
    (∀ e : String, isValidImageExtension e = true ↔
      lowercaseString e = "jpg" ∨ lowercaseString e = "jpeg" ∨ lowercaseString e = "png" ∨
      lowercaseString e = "tiff" ∨ lowercaseString e = "gif") := by
  refine ⟨?_, ?_, ?_, ?_⟩
  · intro h
    simp [CreateCGImageFromPath, h]
  · intro h1 h2
    simp [CreateCGImageFromPath, h1, h2]
  · intro h1 h2
    simp [CreateCGImageFromPath, readAndDecode, h1, h2]
  · intro e
    simp [isValidImageExtension, List.contains]

/-- C7 witness: a path whose file is missing resolves to the not-found error;
an existing path with a disallowed extension resolves to the format error. -/
theorem C7_path_resolution_checks_witness :
    (fsDemo.fileExists "missing.png" = false ∧
      CreateCGImageFromPath fsDemo (some "missing.png") = .error "File does not exist") ∧
    (fsDemo.fileExists "good.png" = true ∧
      isValidImageExtension (lowercaseString (pathExtension "good.png")) = true ∧
      CreateCGImageFromPath fsDemo (some "good.png") = readAndDecode fsDemo "good.png") :=
  ⟨⟨by decide, (C7_path_resolution_checks fsDemo "missing.png").1 (by decide)⟩,
   ⟨by decide, by decide,
    (C7_path_resolution_checks fsDemo "good.png").2.2.1 (by decide) (by decide)⟩⟩

/-- C8 counterexample: when the initial `malloc` of the result struct fails,
`perform_ocr` returns NULL (documented at ocr.h line 86: "NULL if memory
allocation fails") — not an `OCRResult` value, refuting "always yielding an
OCRResult value" / "infallible at the type level". -/
theorem C8_counterexample_malloc_null :
    perform_ocr { mallocResult := false, strdupText := true } recogOK (some 0) none = none := rfl

/-- C8 as amended: provided the allocation of the result struct succeeds,
`perform_ocr` always yields an `OCRResult`; a null image yields a result with
`error` set (no exception); a failure to invoke the recognition capability is
surfaced as `error` with no text set; and `error` and a populated `text` are
mutually exclusive (`error` set implies `text` null; no `error` implies
`text` non-null). -/
theorem C8_perform_ocr_infallible (alloc : AllocEnv) (env : RecogEnv)
    (image : Option ℕ) (options : Option OCROptions) (h : alloc.mallocResult = true) :
    ∃ r, perform_ocr alloc env image options = some r ∧
      (image = none → r.error = some "CGImage is required and cannot be NULL") ∧
      (∀ msg, image ≠ none → env.performRequests = .error msg →
        r.error = some msg ∧ r.text = none) ∧
      (r.error.isSome → r.text = none) ∧
      (r.error = none → r.text.isSome) := by
  simp only [perform_ocr, h]
  norm_num
  cases image with
  | none =>
    exact ⟨_, rfl, fun _ => rfl, fun msg hne _ => absurd rfl hne, fun _ => rfl, by simp⟩
  | some img =>
    cases henv : env.performRequests with
    | error msg =>
      refine ⟨_, rfl, by simp, ?_, fun _ => rfl, by simp⟩
      intro msg2 _ henv2
      injection henv2 with hmsg
      subst hmsg
      exact ⟨rfl, rfl⟩
    | ok observations =>
      by_cases hc : 0 < (observations.foldl
          (processObservation (options.getD DEFAULT_OPTIONS).min_confidence)
          { recognizedText := "", totalConfidence := 0, observationCount := 0 }).observationCount
      · cases hsd : alloc.strdupText with
        | true =>
          simp only [hc, if_true, hsd]
          exact ⟨_, rfl, by simp, by simp [henv], by simp [mallocOCRResult], by simp⟩
        | false =>
          simp only [hc, if_true, hsd]
          exact ⟨_, rfl, by simp, by simp [henv], fun _ => rfl, by simp [mallocOCRResult]⟩
      · cases hsd : alloc.strdupText with
        | true =>
          simp only [hc, if_false, hsd]
          exact ⟨_, rfl, by simp, by simp [henv], by simp [mallocOCRResult], by simp⟩
        | false =>
          simp only [hc, if_false, hsd]
          exact ⟨_, rfl, by simp, by simp [henv], fun _ => rfl, by simp [mallocOCRResult]⟩

/-- C8 witness: the amended statement at a concrete input (null image, all
allocations succeeding). -/
theorem C8_perform_ocr_infallible_witness :
    allocOK.mallocResult = true ∧
    ∃ r, perform_ocr allocOK recogOK none none = some r ∧
      (none = (none : Option ℕ) → r.error = some "CGImage is required and cannot be NULL") ∧
      (∀ msg, (none : Option ℕ) ≠ none → recogOK.performRequests = .error msg →
        r.error = some msg ∧ r.text = none) ∧
      (r.error.isSome → r.text = none) ∧
      (r.error = none → r.text.isSome) :=
  ⟨rfl, C8_perform_ocr_infallible allocOK recogOK none none rfl⟩

/-- C10: every path through `perform_ocr` — and the error slot constructed by
a batch worker — returns the `OCRResult` with `observations` and
`observation_count` never assigned (they keep whatever `malloc` left in
them), while binding.c CompleteOCR (lines 103-128) unconditionally reads
both fields.  Shown at three concrete inputs: a null image, a batch slot for
a nonexistent path, and a successful recognition pass. -/
theorem C10_observation_fields_never_assigned :
    (perform_ocr allocOK recogOK none none =
      some { error := some "CGImage is required and cannot be NULL", text := none,
             confidence := 0, observations := .uninit, observation_count := .uninit }) ∧
    (pathItemOutcome fsDemo allocOK recogOK DEFAULT_OPTIONS (some "missing.png") =
      some { error := some "File does not exist", text := none,
             confidence := 0, observations := .uninit, observation_count := .uninit }) ∧
    ((perform_ocr allocOK { performRequests := .ok [obsHigh] } (some 0) none).map
        (fun r => (r.error, r.text, r.observations, r.observation_count)) =
      some (none, some "A", .uninit, .uninit)) := by
  refine ⟨by decide, by decide, rfl⟩

/-- C9: with the batch bookkeeping struct allocated, a batch call with a null
or empty item array, and a batch call whose results-array `calloc` fails,
both return early — before the dispatch loop, hence before any per-item work
— with the batch-level `error` set and `results` still NULL, in both the
path flavor and the buffer flavor. -/
theorem C9_batch_prevalidation
    (ba : BatchAlloc) (fs : FileSystem) (alloc : ℕ → AllocEnv) (recog : ℕ → RecogEnv)
    (nproc : ℕ) (image_paths : Option (List (Option String)))
    (buffers : Option (List (Option ℕ × ℕ))) (lengthsNull : Bool)
    (options : Option OCRBatchOptions) (hm : ba.batchMalloc = true) :
    ((image_paths = none ∨ (image_paths.getD []).length = 0) →
      ∃ r, perform_batch_ocr ba fs alloc recog nproc image_paths options = .early (some r) ∧
        r.error.isSome ∧ r.results = none) ∧
    (ba.resultsCalloc = false →
      ∃ r, perform_batch_ocr ba fs alloc recog nproc image_paths options = .early (some r) ∧
        r.error.isSome ∧ r.results = none) ∧
    ((buffers = none ∨ lengthsNull = true ∨ (buffers.getD []).length = 0) →
      ∃ r, perform_batch_ocr_from_buffers ba fs alloc recog nproc buffers lengthsNull options
          = .early (some r) ∧ r.error.isSome ∧ r.results = none) ∧
    (ba.resultsCalloc = false →
      ∃ r, perform_batch_ocr_from_buffers ba fs alloc recog nproc buffers lengthsNull options
          = .early (some r) ∧ r.error.isSome ∧ r.results = none) := by
  refine ⟨?_, ?_, ?_, ?_⟩
  · intro hempty
    unfold perform_batch_ocr
    rw [hm, if_neg (show ¬(true = false) by simp), if_pos hempty]
    exact ⟨_, rfl, rfl, rfl⟩
  · intro hcalloc
    unfold perform_batch_ocr
    rw [hm, if_neg (show ¬(true = false) by simp)]
    by_cases hempty : (image_paths = none ∨ (image_paths.getD []).length = 0)
    · rw [if_pos hempty]
      exact ⟨_, rfl, rfl, rfl⟩
    · rw [if_neg hempty, hcalloc, if_pos rfl]
      exact ⟨_, rfl, rfl, rfl⟩
  · intro hempty
    unfold perform_batch_ocr_from_buffers
    rw [hm, if_neg (show ¬(true = false) by simp), if_pos hempty]
    exact ⟨_, rfl, rfl, rfl⟩
  · intro hcalloc
    unfold perform_batch_ocr_from_buffers
    rw [hm, if_neg (show ¬(true = false) by simp)]
    by_cases hempty : (buffers = none ∨ lengthsNull = true ∨ (buffers.getD []).length = 0)
    · rw [if_pos hempty]
      exact ⟨_, rfl, rfl, rfl⟩
    · rw [if_neg hempty, hcalloc, if_pos rfl]
      exact ⟨_, rfl, rfl, rfl⟩

/-- C9 witness: the null-paths case and the calloc-failure case at concrete
inputs. -/
theorem C9_batch_prevalidation_witness :
    (({ batchMalloc := true, resultsCalloc := true } : BatchAlloc).batchMalloc = true ∧
      ∃ r, perform_batch_ocr { batchMalloc := true, resultsCalloc := true } fsDemo
          (fun _ => allocOK) (fun _ => recogOK) 4 none none = .early (some r) ∧
        r.error.isSome ∧ r.results = none) ∧
    (({ batchMalloc := true, resultsCalloc := false } : BatchAlloc).resultsCalloc = false ∧
      ∃ r, perform_batch_ocr { batchMalloc := true, resultsCalloc := false } fsDemo
          (fun _ => allocOK) (fun _ => recogOK) 4 (some [some "good.png"]) none = .early (some r) ∧
        r.error.isSome ∧ r.results = none) :=
  ⟨⟨rfl, (C9_batch_prevalidation { batchMalloc := true, resultsCalloc := true } fsDemo
      (fun _ => allocOK) (fun _ => recogOK) 4 none none false none rfl).1 (Or.inl rfl)⟩,
   ⟨rfl, (C9_batch_prevalidation { batchMalloc := true, resultsCalloc := false } fsDemo
      (fun _ => allocOK) (fun _ => recogOK) 4 (some [some "good.png"]) none false none rfl).2.1 rfl⟩⟩

lemma processObservation_sel_none (mc : ℚ) (st : OCRState) (o : VNRecognizedTextObservation)
    (hsel : selectCandidate mc (topCandidates o 5) = none) :
    processObservation mc st o = st := by
  unfold processObservation
  rw [hsel]

lemma processObservation_sel_some (mc : ℚ) (st : OCRState) (o : VNRecognizedTextObservation)
    (c : VNRecognizedText) (hsel : selectCandidate mc (topCandidates o 5) = some c) :
    processObservation mc st o =
      { recognizedText :=
          if 0 < c.string.length then
            (if 0 < st.recognizedText.length then
              st.recognizedText ++ assembleSep o.boundingBox.y
            else st.recognizedText) ++ c.string
          else st.recognizedText
        totalConfidence := st.totalConfidence + c.confidence
        observationCount := st.observationCount + 1 } := by
  unfold processObservation assembleSep
  rw [hsel]
  by_cases h1 : 0 < c.string.length
  · by_cases h2 : 0 < st.recognizedText.length
    · simp [h1, h2]
    · simp [h1, h2]
  · simp [h1]

lemma acceptedCands_cons_none (mc : ℚ) (o : VNRecognizedTextObservation)
    (rest : List VNRecognizedTextObservation)
    (hsel : selectCandidate mc (topCandidates o 5) = none) :
    acceptedCands mc (o :: rest) = acceptedCands mc rest := by
  unfold acceptedCands
  rw [List.filterMap_cons, hsel]

lemma acceptedCands_cons_some (mc : ℚ) (o : VNRecognizedTextObservation)
    (rest : List VNRecognizedTextObservation) (c : VNRecognizedText)
    (hsel : selectCandidate mc (topCandidates o 5) = some c) :
    acceptedCands mc (o :: rest) = c :: acceptedCands mc rest := by
  unfold acceptedCands
  rw [List.filterMap_cons, hsel]

lemma acceptedPairs_cons_none (mc : ℚ) (o : VNRecognizedTextObservation)
    (rest : List VNRecognizedTextObservation)
    (hsel : selectCandidate mc (topCandidates o 5) = none) :
    acceptedPairs mc (o :: rest) = acceptedPairs mc rest := by
  unfold acceptedPairs
  rw [List.filterMap_cons, hsel]
  rfl

lemma acceptedPairs_cons_some (mc : ℚ) (o : VNRecognizedTextObservation)
    (rest : List VNRecognizedTextObservation) (c : VNRecognizedText)
    (hsel : selectCandidate mc (topCandidates o 5) = some c) :
    acceptedPairs mc (o :: rest) = (c.string, o.boundingBox.y) :: acceptedPairs mc rest := by
  unfold acceptedPairs
  rw [List.filterMap_cons, hsel]
  rfl

lemma foldl_confidence (mc : ℚ) :
    ∀ (l : List VNRecognizedTextObservation) (st : OCRState),
      ((l.foldl (processObservation mc) st).totalConfidence
          = st.totalConfidence + ((acceptedCands mc l).map (fun c => c.confidence)).sum) ∧
      ((l.foldl (processObservation mc) st).observationCount
          = st.observationCount + (acceptedCands mc l).length) := by
  intro l
  induction l with
  | nil => intro st; simp [acceptedCands]
  | cons o rest ih =>
    intro st
    cases hsel : selectCandidate mc (topCandidates o 5) with
    | none =>
      rw [List.foldl_cons, processObservation_sel_none mc st o hsel,
        acceptedCands_cons_none mc o rest hsel]
      exact ih st
    | some c =>
      rw [List.foldl_cons, processObservation_sel_some mc st o c hsel,
        acceptedCands_cons_some mc o rest c hsel]
      obtain ⟨ihc, ihn⟩ := ih
        { recognizedText :=
            if 0 < c.string.length then
              (if 0 < st.recognizedText.length then
                st.recognizedText ++ assembleSep o.boundingBox.y
              else st.recognizedText) ++ c.string
            else st.recognizedText
          totalConfidence := st.totalConfidence + c.confidence
          observationCount := st.observationCount + 1 }
      constructor
      · rw [ihc]
        simp only [List.map_cons, List.sum_cons]
        ring
      · rw [ihn]
        simp only [List.length_cons]
        omega

/-- C4: per region, the code iterates the ranked candidates in order and
selects the first whose confidence is at least `min_confidence`; when no
candidate qualifies the region contributes nothing to the handler state (no
text, no confidence, no count); and every accepted candidate across a pass
has confidence at least `min_confidence`. -/
theorem C4_candidate_selection (mc : ℚ) (st : OCRState) (obs : VNRecognizedTextObservation) :
    (∀ c, selectCandidate mc (topCandidates obs 5) = some c →
      mc ≤ c.confidence ∧
      ∃ l1 l2, topCandidates obs 5 = l1 ++ c :: l2 ∧ ∀ c2 ∈ l1, c2.confidence < mc) ∧
    (selectCandidate mc (topCandidates obs 5) = none →
      processObservation mc st obs = st) ∧
    (∀ (l : List VNRecognizedTextObservation) (c : VNRecognizedText),
      c ∈ acceptedCands mc l → mc ≤ c.confidence) := by
  refine ⟨?_, ?_, ?_⟩
  · intro c h
    constructor
    · have hp := List.find?_some h
      simpa using hp
    · obtain ⟨l1, l2, heq, hall⟩ := find?_first _ _ _ h
      refine ⟨l1, l2, heq, ?_⟩
      intro c2 hc2
      have hfalse := hall c2 hc2
      simp only [decide_eq_false_iff_not] at hfalse
      exact lt_of_not_le hfalse
  · intro h
    exact processObservation_sel_none mc st obs h
  · intro l c hc
    rw [acceptedCands, List.mem_filterMap] at hc
    obtain ⟨o, _, hsel⟩ := hc
    have hp := List.find?_some hsel
    simpa using hp

/-- C4 witness: with threshold 0, the single ranked candidate of `obsHigh` is
selected and satisfies the floor. -/
theorem C4_candidate_selection_witness :
    selectCandidate 0 (topCandidates obsHigh 5) =
      some { string := "A", confidence := 1 } ∧
    (0 : ℚ) ≤ ({ string := "A", confidence := 1 } : VNRecognizedText).confidence :=
  ⟨by decide,
   (((C4_candidate_selection 0 { recognizedText := "", totalConfidence := 0, observationCount := 0 }
      obsHigh).1 { string := "A", confidence := 1 }) (by decide)).1⟩

/-- C6: the result's confidence is the arithmetic mean of the accepted
candidates' confidences, and when zero candidates are accepted the result
has empty text and confidence 0. -/
theorem C6_confidence_rollup (alloc : AllocEnv) (env : RecogEnv) (img : ℕ)
    (options : Option OCROptions) (obsList : List VNRecognizedTextObservation)
    (h1 : alloc.mallocResult = true) (h2 : alloc.strdupText = true)
    (hr : env.performRequests = .ok obsList) :
    ∃ r, perform_ocr alloc env (some img) options = some r ∧
      r.confidence = listMean ((acceptedCands (options.getD DEFAULT_OPTIONS).min_confidence
        obsList).map (fun c => c.confidence)) ∧
      (acceptedCands (options.getD DEFAULT_OPTIONS).min_confidence obsList = [] →
        r.text = some "" ∧ r.confidence = 0) := by
  simp only [perform_ocr, h1]
  norm_num
  rw [hr]
  obtain ⟨hc, hn⟩ := foldl_confidence (options.getD DEFAULT_OPTIONS).min_confidence obsList
    { recognizedText := "", totalConfidence := 0, observationCount := 0 }
  rw [show ({ recognizedText := "", totalConfidence := 0, observationCount := 0 } :
    OCRState).totalConfidence = 0 from rfl, zero_add] at hc
  rw [show ({ recognizedText := "", totalConfidence := 0, observationCount := 0 } :
    OCRState).observationCount = 0 from rfl, Nat.zero_add] at hn
  by_cases hcount : 0 < (obsList.foldl
      (processObservation (options.getD DEFAULT_OPTIONS).min_confidence)
      { recognizedText := "", totalConfidence := 0, observationCount := 0 }).observationCount
  · simp only [hcount, if_true, h2]
    refine ⟨_, rfl, ?_, ?_⟩
    · simp only [hc, hn]
      rw [listMean]
      have hlen : (acceptedCands (options.getD DEFAULT_OPTIONS).min_confidence obsList).length ≠ 0 := by
        rw [hn] at hcount
        omega
      rw [if_neg (by simpa using hlen)]
      simp [hn]
    · intro hnil
      rw [hn, hnil] at hcount
      simp at hcount
  · simp only [hcount, if_false, h2]
    refine ⟨_, rfl, ?_, fun _ => ⟨rfl, rfl⟩⟩
    have hnil : acceptedCands (options.getD DEFAULT_OPTIONS).min_confidence obsList = [] := by
      rw [hn] at hcount
      exact List.length_eq_zero.mp (by omega)
    rw [hnil]
    simp [listMean]

/-- C6 witness: one accepted candidate with confidence 1 yields a mean of 1
(and the statement at a concrete input). -/
theorem C6_confidence_rollup_witness :
    allocOK.mallocResult = true ∧ allocOK.strdupText = true ∧
    ({ performRequests := .ok [obsHigh] } : RecogEnv).performRequests = .ok [obsHigh] ∧
    ∃ r, perform_ocr allocOK { performRequests := .ok [obsHigh] } (some 0) none = some r ∧
      r.confidence = listMean ((acceptedCands ((none : Option OCROptions).getD
        DEFAULT_OPTIONS).min_confidence [obsHigh]).map (fun c => c.confidence)) ∧
      (acceptedCands ((none : Option OCROptions).getD DEFAULT_OPTIONS).min_confidence [obsHigh] = [] →
        r.text = some "" ∧ r.confidence = 0) :=
  ⟨rfl, rfl, rfl, C6_confidence_rollup allocOK { performRequests := .ok [obsHigh] } 0 none [obsHigh] rfl rfl rfl⟩

lemma acceptedPairs_length (mc : ℚ) :
    ∀ l : List VNRecognizedTextObservation,
      (acceptedPairs mc l).length = (acceptedCands mc l).length := by
  intro l
  induction l with
  | nil => rfl
  | cons o rest ih =>
    cases hsel : selectCandidate mc (topCandidates o 5) with
    | none =>
      rw [acceptedPairs_cons_none mc o rest hsel, acceptedCands_cons_none mc o rest hsel]
      exact ih
    | some c =>
      rw [acceptedPairs_cons_some mc o rest c hsel, acceptedCands_cons_some mc o rest c hsel]
      simp only [List.length_cons]
      omega

lemma foldl_text (mc : ℚ) :
    ∀ (l : List VNRecognizedTextObservation) (st : OCRState),
      (∀ p ∈ acceptedPairs mc l, p.1 ≠ "") →
      ((st.recognizedText = "" →
        (l.foldl (processObservation mc) st).recognizedText
          = assembleText (acceptedPairs mc l)) ∧
      (st.recognizedText ≠ "" →
        (l.foldl (processObservation mc) st).recognizedText
          = (acceptedPairs mc l).foldl (fun acc q => acc ++ assembleSep q.2 ++ q.1)
              st.recognizedText)) := by
  intro l
  induction l with
  | nil =>
    intro st _
    constructor
    · intro h0
      simpa [assembleText, acceptedPairs] using h0
    · intro _
      simp [acceptedPairs]
  | cons o rest ih =>
    intro st hne
    cases hsel : selectCandidate mc (topCandidates o 5) with
    | none =>
      have hne2 : ∀ p ∈ acceptedPairs mc rest, p.1 ≠ "" := by
        intro p hp
        exact hne p (by rw [acceptedPairs_cons_none mc o rest hsel]; exact hp)
      constructor
      · intro h0
        rw [List.foldl_cons, processObservation_sel_none mc st o hsel,
          acceptedPairs_cons_none mc o rest hsel]
        exact (ih st hne2).1 h0
      · intro h0
        rw [List.foldl_cons, processObservation_sel_none mc st o hsel,
          acceptedPairs_cons_none mc o rest hsel]
        exact (ih st hne2).2 h0
    | some c =>
      have hcs : c.string ≠ "" := by
        apply hne (c.string, o.boundingBox.y)
        rw [acceptedPairs_cons_some mc o rest c hsel]
        exact List.mem_cons_self _ _
      have hcl : 0 < c.string.length := (string_length_pos_iff c.string).mpr hcs
      have hne2 : ∀ p ∈ acceptedPairs mc rest, p.1 ≠ "" := by
        intro p hp
        exact hne p (by
          rw [acceptedPairs_cons_some mc o rest c hsel]
          exact List.mem_cons_of_mem _ hp)
      constructor
      · intro h0
        rw [List.foldl_cons, processObservation_sel_some mc st o c hsel,
          acceptedPairs_cons_some mc o rest c hsel]
        have hsn : ¬ 0 < st.recognizedText.length := by
          rw [h0]
          simp
        rw [if_pos hcl, if_neg hsn, h0, string_empty_append]
        have hrec := (ih { recognizedText := c.string
                           totalConfidence := st.totalConfidence + c.confidence
                           observationCount := st.observationCount + 1 } hne2).2 hcs
        rw [hrec]
        rfl
      · intro h0
        rw [List.foldl_cons, processObservation_sel_some mc st o c hsel,
          acceptedPairs_cons_some mc o rest c hsel]
        have hsp : 0 < st.recognizedText.length := (string_length_pos_iff _).mpr h0
        rw [if_pos hcl, if_pos hsp]
        have hne3 : st.recognizedText ++ assembleSep o.boundingBox.y ++ c.string ≠ "" :=
          string_append_ne_empty_left _ _ (string_append_ne_empty_left _ _ h0)
        have hrec := (ih { recognizedText :=
                             st.recognizedText ++ assembleSep o.boundingBox.y ++ c.string
                           totalConfidence := st.totalConfidence + c.confidence
                           observationCount := st.observationCount + 1 } hne2).2 hne3
        rw [hrec]
        rfl

/-- C5 counterexample: with two accepted regions at y = 0.5 then y = 0.3 the
code separates with a single space (0.3 is not below the absolute threshold
0.1), while the claim's rule — newline when the region's y is below 0.1
relative to the *previous* accepted region — prescribes a newline
(0.3 < 0.5 − 0.1).  The code's assembled text is "A B", not "A\nB". -/
theorem C5_counterexample_relative_threshold :
    (perform_ocr allocOK { performRequests := .ok [obsHigh, obsLow] } (some 0) none).map
      (fun r => r.text) = some (some "A B") ∧
    assembleTextSpecRelative (acceptedPairs 0 [obsHigh, obsLow]) = "A\nB" ∧
    ("A B" : String) ≠ "A\nB" := by
  refine ⟨rfl, ?_, by decide⟩
  have hpairs : acceptedPairs 0 [obsHigh, obsLow] =
      [("A", mkRat 1 2), ("B", mkRat 3 10)] := by decide
  have hcond : mkRat 3 10 < mkRat 1 2 - (1 : ℚ) / 10 := by
    norm_num [Rat.mkRat_eq_div]
  rw [hpairs]
  show assembleRelGo "A" (mkRat 1 2) [("B", mkRat 3 10)] = "A\nB"
  rw [show assembleRelGo "A" (mkRat 1 2) [("B", mkRat 3 10)]
      = assembleRelGo ("A" ++ (if mkRat 3 10 < mkRat 1 2 - (1 : ℚ) / 10 then "\n" else " ")
          ++ "B") (mkRat 3 10) [] from rfl]
  rw [if_pos hcond]
  rfl

/-- C5 as amended: the assembled text is the concatenation of the selected
candidates' texts in traversal order, the separator before each accepted
region after the first being a newline exactly when that region's own
bounding-box bottom-left y is below the absolute threshold 0.1 (not a
threshold relative to the previous accepted region), and a single space
otherwise; the first accepted region carries no separator.  Stated for
passes whose selected texts are non-empty (the spec's TextObservation
invariant). -/
theorem C5_text_assembly (alloc : AllocEnv) (env : RecogEnv) (img : ℕ)
    (options : Option OCROptions) (obsList : List VNRecognizedTextObservation)
    (h1 : alloc.mallocResult = true) (h2 : alloc.strdupText = true)
    (hr : env.performRequests = .ok obsList)
    (hne : ∀ p ∈ acceptedPairs (options.getD DEFAULT_OPTIONS).min_confidence obsList, p.1 ≠ "") :
    ∃ r, perform_ocr alloc env (some img) options = some r ∧
      r.text = some (assembleText
        (acceptedPairs (options.getD DEFAULT_OPTIONS).min_confidence obsList)) := by
  simp only [perform_ocr, h1]
  norm_num
  rw [hr]
  have htext := (foldl_text (options.getD DEFAULT_OPTIONS).min_confidence obsList
    { recognizedText := "", totalConfidence := 0, observationCount := 0 } hne).1 rfl
  obtain ⟨-, hn⟩ := foldl_confidence (options.getD DEFAULT_OPTIONS).min_confidence obsList
    { recognizedText := "", totalConfidence := 0, observationCount := 0 }
  rw [show ({ recognizedText := "", totalConfidence := 0, observationCount := 0 } :
    OCRState).observationCount = 0 from rfl, Nat.zero_add] at hn
  by_cases hcount : 0 < (obsList.foldl
      (processObservation (options.getD DEFAULT_OPTIONS).min_confidence)
      { recognizedText := "", totalConfidence := 0, observationCount := 0 }).observationCount
  · simp only [hcount, if_true, h2]
    exact ⟨_, rfl, by rw [htext]⟩
  · simp only [hcount, if_false, h2]
    refine ⟨_, rfl, ?_⟩
    have hnil : acceptedPairs (options.getD DEFAULT_OPTIONS).min_confidence obsList = [] := by
      apply List.length_eq_zero.mp
      rw [acceptedPairs_length]
      rw [hn] at hcount
      omega
    rw [hnil]
    rfl

/-- C5 witness: the amended statement at the two-region input used by the
counterexample. -/
theorem C5_text_assembly_witness :
    allocOK.mallocResult = true ∧ allocOK.strdupText = true ∧
    (∀ p ∈ acceptedPairs ((none : Option OCROptions).getD DEFAULT_OPTIONS).min_confidence
      [obsHigh, obsLow], p.1 ≠ "") ∧
    ∃ r, perform_ocr allocOK { performRequests := .ok [obsHigh, obsLow] } (some 0) none = some r ∧
      r.text = some (assembleText
        (acceptedPairs ((none : Option OCROptions).getD DEFAULT_OPTIONS).min_confidence
          [obsHigh, obsLow])) :=
  ⟨rfl, rfl, by decide,
   C5_text_assembly allocOK { performRequests := .ok [obsHigh, obsLow] } 0 none
     [obsHigh, obsLow] rfl rfl rfl (by decide)⟩


lemma step_dispatch_eq {cfg : BatchCfg} {s s' : BState}
    (h : step cfg s .dispatch = some s') :
    s.mainIdx < cfg.count ∧ 0 < s.permits ∧ s'.mainIdx = s.mainIdx + 1 ∧
    s'.permits = s.permits - 1 ∧ s'.running = s.mainIdx :: s.running ∧
    s'.slots = s.slots ∧ s'.failed = s.failed := by
  simp only [step] at h
  split at h
  · rename_i hcond
    injection h with h
    subst h
    exact ⟨hcond.1, hcond.2, rfl, rfl, rfl, rfl, rfl⟩
  · exact Option.noConfusion h

lemma step_complete_eq {cfg : BatchCfg} {s s' : BState} {i : ℕ}
    (h : step cfg s (.complete i) = some s') :
    i ∈ s.running ∧ s'.mainIdx = s.mainIdx ∧
    s'.permits = s.permits + (if cfg.signals i then 1 else 0) ∧
    s'.running = s.running.erase i ∧
    s'.slots = s.slots.set i (cfg.outcome i) ∧
    s'.failed = s.failed + (if failIncr (cfg.outcome i) then 1 else 0) := by
  simp only [step] at h
  split at h
  · rename_i hmem
    injection h with h
    subst h
    exact ⟨hmem, rfl, rfl, rfl, rfl, rfl⟩
  · exact Option.noConfusion h

lemma step_inv {cfg : BatchCfg} {s s' : BState} {e : Ev}
    (hInv : LoopInv cfg s) (h : step cfg s e = some s') : LoopInv cfg s' := by
  obtain ⟨hrun, hnd, hmc, hlen, hdone, hnone⟩ := hInv
  cases e with
  | dispatch =>
    obtain ⟨hlt, hpos, hm, hp, hr, hsl, hf⟩ := step_dispatch_eq h
    refine ⟨?_, ?_, ?_, ?_, ?_, ?_⟩
    · intro i hi
      rw [hr] at hi
      rw [hm]
      rcases List.mem_cons.mp hi with h1 | h1
      · omega
      · have := hrun i h1
        omega
    · rw [hr]
      refine List.nodup_cons.mpr ⟨?_, hnd⟩
      intro hmem
      have := hrun _ hmem
      omega
    · rw [hm]
      omega
    · rw [hsl]
      exact hlen
    · intro i hi hni
      rw [hm] at hi
      rw [hr] at hni
      rw [hsl]
      have hne : i ≠ s.mainIdx := fun hh => hni (hh ▸ List.mem_cons_self _ _)
      exact hdone i (by omega) (fun hmem => hni (List.mem_cons_of_mem _ hmem))
    · intro i hi
      rw [hm] at hi
      rw [hr] at hi
      rw [hsl]
      apply hnone i
      intro hilt
      rcases List.mem_cons.mp (hi (by omega)) with h1 | h1
      · omega
      · exact h1
  | complete i =>
    obtain ⟨hmem, hm, hp, hr, hsl, hf⟩ := step_complete_eq h
    have himx : i < s.mainIdx := hrun i hmem
    refine ⟨?_, ?_, ?_, ?_, ?_, ?_⟩
    · intro j hj
      rw [hr] at hj
      rw [hm]
      exact hrun j (List.mem_of_mem_erase hj)
    · rw [hr]
      exact hnd.erase i
    · rw [hm]
      exact hmc
    · rw [hsl, List.length_set]
      exact hlen
    · intro j hj hnj
      rw [hm] at hj
      rw [hr] at hnj
      rw [hsl]
      by_cases hji : j = i
      · subst hji
        exact getD_set_self _ _ _ _ (by rw [hlen]; omega)
      · rw [getD_set_ne _ _ _ (fun hh => hji hh.symm)]
        apply hdone j hj
        intro hmem2
        exact hnj ((List.mem_erase_of_ne hji).mpr hmem2)
    · intro j hj
      rw [hm] at hj
      rw [hr] at hj
      rw [hsl]
      by_cases hji : j = i
      · subst hji
        exact absurd (hj himx) hnd.not_mem_erase
      · rw [getD_set_ne _ _ _ (fun hh => hji hh.symm)]
        apply hnone j
        intro hjlt
        exact List.mem_of_mem_erase (hj hjlt)

lemma exec_preserve (cfg : BatchCfg) (P : BState → Prop)
    (hstep : ∀ s e s', P s → step cfg s e = some s' → P s') :
    ∀ (tr : List Ev) (s s' : BState), P s → execFrom cfg s tr = some s' → P s' := by
  intro tr
  induction tr with
  | nil =>
    intro s s' hP h
    unfold execFrom at h
    injection h with h
    subst h
    exact hP
  | cons e es ih =>
    intro s s' hP h
    unfold execFrom at h
    cases hst : step cfg s e with
    | none =>
      rw [hst] at h
      exact Option.noConfusion h
    | some s1 =>
      rw [hst] at h
      exact ih s1 s' (hstep s e s1 hP hst) h

lemma exec_wflag (cfg : BatchCfg) :
    ∀ (tr : List Ev) (s s' : BState), LoopInv cfg s → execFrom cfg s tr = some s' →
      ∀ i, wflag s' i = wflag s i + (tr.filter (fun e => e = Ev.complete i)).length := by
  intro tr
  induction tr with
  | nil =>
    intro s s' _ h i
    unfold execFrom at h
    injection h with h
    subst h
    simp
  | cons e es ih =>
    intro s s' hInv h i
    unfold execFrom at h
    cases hst : step cfg s e with
    | none =>
      rw [hst] at h
      exact Option.noConfusion h
    | some s1 =>
      rw [hst] at h
      have hInv1 := step_inv hInv hst
      have hrec := ih s1 s' hInv1 h i
      cases e with
      | dispatch =>
        obtain ⟨hlt, hpos, hm, hp, hr, hsl, hf⟩ := step_dispatch_eq hst
        have hstep_w : wflag s1 i = wflag s i := by
          unfold wflag
          rw [hm, hr]
          by_cases hc : i < s.mainIdx ∧ i ∉ s.running
          · have hc1 : i < s.mainIdx + 1 ∧ i ∉ s.mainIdx :: s.running := by
              refine ⟨by omega, fun hmem => ?_⟩
              rcases List.mem_cons.mp hmem with h1 | h1
              · omega
              · exact hc.2 h1
            rw [if_pos hc1, if_pos hc]
          · have hc1 : ¬ (i < s.mainIdx + 1 ∧ i ∉ s.mainIdx :: s.running) := by
              intro hc2
              apply hc
              have hne : i ≠ s.mainIdx := fun hh => hc2.2 (hh ▸ List.mem_cons_self _ _)
              refine ⟨by omega, fun hmem => hc2.2 (List.mem_cons_of_mem _ hmem)⟩
            rw [if_neg hc1, if_neg hc]
        rw [hrec, hstep_w, List.filter_cons]
        rw [if_neg (by simp : ¬ (decide (Ev.dispatch = Ev.complete i) = true))]
      | complete k =>
        obtain ⟨hmem, hm, hp, hr, hsl, hf⟩ := step_complete_eq hst
        obtain ⟨hrun2, hnd2, _, _, _, _⟩ := hInv
        have hkm : k < s.mainIdx := hrun2 k hmem
        have hstep_w : wflag s1 i = wflag s i
            + (if Ev.complete k = Ev.complete i then 1 else 0) := by
          unfold wflag
          rw [hm, hr]
          by_cases hik : i = k
          · subst hik
            rw [if_pos ⟨hkm, hnd2.not_mem_erase⟩, if_neg (fun hc => hc.2 hmem), if_pos rfl]
          · have hcond : (i < s.mainIdx ∧ i ∉ s.running.erase k)
                ↔ (i < s.mainIdx ∧ i ∉ s.running) := by
              rw [List.mem_erase_of_ne hik]
            have hev : ¬ (Ev.complete k = Ev.complete i) := by
              intro hc
              injection hc with hc
              exact hik hc.symm
            rw [if_congr hcond rfl rfl, if_neg hev]
            omega
        rw [hrec, hstep_w, List.filter_cons]
        by_cases he : Ev.complete k = Ev.complete i
        · rw [if_pos (by simp [he] : decide (Ev.complete k = Ev.complete i) = true)]
          rw [if_pos he, List.length_cons]
          omega
        · rw [if_neg (by simp [he] : ¬ (decide (Ev.complete k = Ev.complete i) = true))]
          rw [if_neg he]
          omega

lemma step_permits {cfg : BatchCfg} {s s' : BState} {e : Ev}
    (hInv : LoopInv cfg s) (hP : PermitEq cfg s)
    (h : step cfg s e = some s') : PermitEq cfg s' := by
  obtain ⟨hrun, hnd, hmc, hlen, -, -⟩ := hInv
  cases e with
  | dispatch =>
    obtain ⟨hlt, hpos, hm, hp, hr, hsl, hf⟩ := step_dispatch_eq h
    unfold PermitEq sigRun at hP ⊢
    rw [hm, hp, hr, List.filter_cons]
    have hbad : badCount cfg (s.mainIdx + 1)
        = badCount cfg s.mainIdx + (if cfg.signals s.mainIdx = false then 1 else 0) := by
      unfold badCount
      rw [List.range_succ, List.filter_append, List.length_append]
      rcases Bool.dichotomy (cfg.signals s.mainIdx) with hsig | hsig
      · simp [hsig]
      · simp [hsig]
    rw [hbad]
    rcases Bool.dichotomy (cfg.signals s.mainIdx) with hsig | hsig
    · simp [hsig]
      omega
    · simp [hsig]
      omega
  | complete i =>
    obtain ⟨hmem, hm, hp, hr, hsl, hf⟩ := step_complete_eq h
    unfold PermitEq sigRun at hP ⊢
    rw [hm, hp, hr]
    have hfe := filter_erase_nodup (fun j => cfg.signals j) s.running i hnd hmem
    simp only [] at hfe
    rcases Bool.dichotomy (cfg.signals i) with hsig | hsig
    · simp [hsig] at hfe ⊢
      omega
    · simp [hsig] at hfe ⊢
      omega

lemma init_inv (cfg : BatchCfg) : LoopInv cfg (initState cfg) := by
  refine ⟨?_, ?_, ?_, ?_, ?_, ?_⟩
  · intro i hi
    simp [initState] at hi
  · simp [initState]
  · simp [initState]
  · simp [initState]
  · intro i hi
    simp [initState] at hi
  · intro i _
    exact getD_replicate _ _

lemma init_permits (cfg : BatchCfg) : PermitEq cfg (initState cfg) := by
  unfold PermitEq sigRun badCount initState
  simp

lemma final_state_slots (cfg : BatchCfg) (tr : List Ev) (s : BState)
    (hexec : execFrom cfg (initState cfg) tr = some s) (hfin : isFinal cfg s) :
    s.slots.length = cfg.count ∧
    (∀ i, i < cfg.count → s.slots.getD i none = cfg.outcome i) ∧
    (∀ i, i < cfg.count → (tr.filter (fun e => e = Ev.complete i)).length = 1) := by
  have hInv := exec_preserve cfg (LoopInv cfg)
    (fun s e s' hP hst => step_inv hP hst) tr _ s (init_inv cfg) hexec
  obtain ⟨hrun, hnd, hmc, hlen, hdone, hnone⟩ := hInv
  obtain ⟨hfin1, hfin2⟩ := hfin
  refine ⟨hlen, ?_, ?_⟩
  · intro i hi
    exact hdone i (by omega) (by rw [hfin2]; simp)
  · intro i hi
    have hw := exec_wflag cfg tr _ s (init_inv cfg) hexec i
    have h1 : wflag s i = 1 := by
      unfold wflag
      rw [if_pos ⟨by omega, by rw [hfin2]; simp⟩]
    have h0 : wflag (initState cfg) i = 0 := by
      unfold wflag initState
      simp
    omega

lemma exec_mainIdx_le (cfg : BatchCfg) (m : ℕ)
    (hbad : cfg.thread_count ≤ badCount cfg m) :
    ∀ (tr : List Ev) (s : BState),
      execFrom cfg (initState cfg) tr = some s → s.mainIdx ≤ m := by
  intro tr s hexec
  have h := exec_preserve cfg
    (fun s => LoopInv cfg s ∧ PermitEq cfg s ∧ s.mainIdx ≤ m) ?_ tr _ s
    ⟨init_inv cfg, init_permits cfg, by simp [initState]⟩ hexec
  · exact h.2.2
  · intro s1 e s2 hPs hst
    obtain ⟨hI, hPe, hmle⟩ := hPs
    refine ⟨step_inv hI hst, step_permits hI hPe hst, ?_⟩
    cases e with
    | complete i =>
      obtain ⟨-, hm, -, -, -, -⟩ := step_complete_eq hst
      omega
    | dispatch =>
      obtain ⟨hlt, hpos, hm, hp, hr, hsl, hf⟩ := step_dispatch_eq hst
      by_cases hcase : s1.mainIdx < m
      · omega
      · exfalso
        have hmm : s1.mainIdx = m := by omega
        unfold PermitEq at hPe
        rw [hmm] at hPe
        omega

/-- C1: when a path batch reaches its dispatch loop, then for every schedule
(any interleaving of dispatches and worker completions, in any completion
order) under which the loop runs to completion, the slot array has exactly
`paths.length` entries, slot `i` holds exactly the outcome derived from
`paths[i]`, and slot `i` was written exactly once (one completion event per
index in the schedule). -/
theorem C1_batch_slot_alignment (ba : BatchAlloc) (fs : FileSystem)
    (alloc : ℕ → AllocEnv) (recog : ℕ → RecogEnv) (nproc : ℕ)
    (paths : List (Option String)) (options : Option OCRBatchOptions)
    (cfg : BatchCfg) (tr : List Ev) (s : BState)
    (hne : paths ≠ [])
    (hdisp : perform_batch_ocr ba fs alloc recog nproc (some paths) options = .dispatch cfg)
    (hexec : execFrom cfg (initState cfg) tr = some s)
    (hfin : isFinal cfg s) :
    s.slots.length = paths.length ∧
    (∀ i, i < paths.length → s.slots.getD i none =
      pathItemOutcome fs (alloc i) (recog i)
        (options.getD DEFAULT_BATCH_OPTIONS).ocr_options (paths.getD i none)) ∧
    (∀ i, i < paths.length → (tr.filter (fun e => e = Ev.complete i)).length = 1) := by
  unfold perform_batch_ocr at hdisp
  by_cases hb : ba.batchMalloc = false
  · rw [if_pos hb] at hdisp
    exact BatchPhase.noConfusion hdisp
  · rw [if_neg hb] at hdisp
    have hcond : ¬ ((some paths : Option (List (Option String))) = none
        ∨ ((some paths : Option (List (Option String))).getD []).length = 0) := by
      rintro (hc | hc)
      · exact Option.noConfusion hc
      · exact hne (List.length_eq_zero.mp hc)
    rw [if_neg hcond] at hdisp
    by_cases hc : ba.resultsCalloc = false
    · rw [if_pos hc] at hdisp
      exact BatchPhase.noConfusion hdisp
    · rw [if_neg hc] at hdisp
      injection hdisp with hcfg
      subst hcfg
      obtain ⟨h1, h2, h3⟩ := final_state_slots _ tr s hexec hfin
      exact ⟨h1, h2, h3⟩

/-- C1 witness: a two-item batch with the second item completing first still
fills slot 0 from item 0 and slot 1 from item 1. -/
theorem C1_batch_slot_alignment_witness :
    ([some "good.png", some "good2.png"] : List (Option String)) ≠ [] ∧
    perform_batch_ocr { batchMalloc := true, resultsCalloc := true } fsDemo
      (fun _ => allocOK) (fun _ => recogOK) 4
      (some [some "good.png", some "good2.png"]) none = .dispatch cfgPathOK ∧
    execFrom cfgPathOK (initState cfgPathOK) trOK = some sOK ∧
    isFinal cfgPathOK sOK ∧
    (∀ i, i < ([some "good.png", some "good2.png"] : List (Option String)).length →
      sOK.slots.getD i none = pathItemOutcome fsDemo allocOK recogOK
        ((none : Option OCRBatchOptions).getD DEFAULT_BATCH_OPTIONS).ocr_options
        (([some "good.png", some "good2.png"] : List (Option String)).getD i none)) :=
  ⟨by simp, rfl, rfl, by decide,
   (C1_batch_slot_alignment { batchMalloc := true, resultsCalloc := true } fsDemo
      (fun _ => allocOK) (fun _ => recogOK) 4 [some "good.png", some "good2.png"] none
      cfgPathOK trOK sOK (by simp) rfl rfl (by decide)).2.1⟩

/-- C2: exactly one failing item (a nonexistent path) among two valid items,
with an admission gate of one permit (`max_threads = 1`): the failing worker
returns without signaling the semaphore (ocr.mm line 328), so the main loop
can never dispatch past it — no schedule reaches the final (returned) state,
and the batch call never returns its three results.  The first three
conjuncts establish that item 0 is the only failing item. -/
theorem C2_single_failure_blocks_batch :
    failIncr (cfgPath3.outcome 0) = true ∧
    failIncr (cfgPath3.outcome 1) = false ∧
    failIncr (cfgPath3.outcome 2) = false ∧
    (∀ (tr : List Ev) (s : BState),
      execFrom cfgPath3 (initState cfgPath3) tr = some s → ¬ isFinal cfgPath3 s) := by
  refine ⟨by decide, rfl, rfl, ?_⟩
  intro tr s hexec hfin
  have hle := exec_mainIdx_le cfgPath3 1 (by decide) tr s hexec
  obtain ⟨hfin1, -⟩ := hfin
  rw [show cfgPath3.count = 3 from rfl] at hfin1
  omega

/-- C2 witness: the impossibility theorem applied to the empty schedule. -/
theorem C2_single_failure_blocks_batch_witness :
    execFrom cfgPath3 (initState cfgPath3) [] = some (initState cfgPath3) ∧
    ¬ isFinal cfgPath3 (initState cfgPath3) :=
  ⟨rfl, C2_single_failure_blocks_batch.2.2.2 [] (initState cfgPath3) rfl⟩

/-- C3: the buffer flavor frees its admission-gate slot on both the success
and the failure path (ocr.mm lines 406, 420), so a one-permit batch with a
failing first item still runs to completion (first conjunct, by an explicit
schedule); the path flavor's failure branch returns without
`dispatch_semaphore_signal` (line 328), so the same shape of batch can never
reach the final state under any schedule (second conjunct) — the batch call
does not terminate, refuting "each worker that occupies an admission-gate
slot frees it when its item finishes (success or failure)". -/
theorem C3_admission_gate_leak :
    (∃ s, execFrom cfgBuf2 (initState cfgBuf2)
        [Ev.dispatch, Ev.complete 0, Ev.dispatch, Ev.complete 1] = some s ∧
      isFinal cfgBuf2 s) ∧
    (∀ (tr : List Ev) (s : BState),
      execFrom cfgPath2 (initState cfgPath2) tr = some s → ¬ isFinal cfgPath2 s) := by
  constructor
  · exact ⟨_, rfl, by decide⟩
  · intro tr s hexec hfin
    have hle := exec_mainIdx_le cfgPath2 1 (by decide) tr s hexec
    obtain ⟨hfin1, -⟩ := hfin
    rw [show cfgPath2.count = 2 from rfl] at hfin1
    omega

/-- C3 witness: the impossibility half applied to the empty schedule. -/
theorem C3_admission_gate_leak_witness :
    execFrom cfgPath2 (initState cfgPath2) [] = some (initState cfgPath2) ∧
    ¬ isFinal cfgPath2 (initState cfgPath2) :=
  ⟨rfl, C3_admission_gate_leak.2 [] (initState cfgPath2) rfl⟩
